import Mathlib

/-!
Verification of the bounded-concurrency domain-to-address resolution pipeline
(the second program of the repository: `readDomains`, `loadIPs`, `appendIP`,
`updateProgress`, `resolveWithTimeout` and the worker loop in `main`).

The Go program keeps three pieces of mutable state: the process-wide set
`ipMap` of already-seen addresses, the integer `counter` of new insertions,
and the durable append-only log file `ips.txt`.  All three are mutated only
inside the critical section guarded by `ipMapLock`, so a run of the pipeline
is a sequence of atomic critical sections; we embed that state explicitly and
model each critical section as a pure state transformer.  File I/O outcomes
(open failures) and the external name-resolution mechanism are parameters of
the model.
-/

/-- Domains are plain strings (already normalised by the input reader). -/
abbrev Domain := String

/-- Addresses are opaque strings (the program never parses them). -/
abbrev Address := String

/-- The mutable state of the program: the in-memory set `ipMap` (modelled as
a duplicate-free list), the lines of the durable log file `ips.txt`, and the
progress `counter`.  In the source these are the two globals plus the file. -/
structure StoreState where
  ipMap : List Address
  log : List Address
  counter : Nat
deriving Repr, DecidableEq

/-- Embedding of `appendIP` (source lines 331-340): open `ips.txt` for
append; on an open error print the error and return without writing,
otherwise write one line `ip`.  `openOk` is the outcome of `os.OpenFile`. -/
def appendIP (openOk : Bool) (ip : Address) (log : List Address) : List Address :=
  if openOk then log ++ [ip] else log

/-- Embedding of `updateProgress` (source lines 342-347): increment the
counter (the periodic print at multiples of 500 has no effect on state). -/
def updateProgress (counter : Nat) : Nat := counter + 1

/-- The critical section of the worker loop (source lines 272-278), which the
spec calls `Insert`: with `ipMapLock` held, check membership of `ip` in
`ipMap`; if absent, add it to `ipMap`, append it to the durable log via
`appendIP`, and advance the progress counter.  Returns the updated state and
whether the address was newly inserted (`true`) or already present
(`false`, no I/O performed). -/
def insertIP (openOk : Bool) (ip : Address) (s : StoreState) : StoreState × Bool :=
  if ip ∈ s.ipMap then (s, false)
  else ({ ipMap := ip :: s.ipMap
          log := appendIP openOk ip s.log
          counter := updateProgress s.counter }, true)

/-- A sequence of `n` `Insert` critical sections for the same address `ip`
(the lock serialises concurrent `Insert` calls, so any concurrent execution
is one such sequence).  Returns the final state and the list of returned
booleans in execution order. -/
def insertCalls (openOk : Bool) (ip : Address) : Nat → StoreState → StoreState × List Bool
  | 0, s => (s, [])
  | n + 1, s =>
      let r := insertIP openOk ip s
      let rest := insertCalls openOk ip n r.1
      (rest.1, r.2 :: rest.2)

/-- Outcome of one call to the external `resolver.LookupIP(ctx, network, domain)`:
either a non-nil error (lookup failure, or the context deadline expiring and
cancelling the call) or a list of addresses in the mechanism's own order. -/
inductive LookupResult where
  | err
  | ok (ips : List Address)
deriving Repr, DecidableEq

/-- A resolution environment: the outcome of `LookupIP` as a function of the
timeout (in seconds), the network argument, and the domain.  The mechanism is
external to the program (spec section 6), so it is a parameter of the model. -/
abbrev LookupFn := Nat → String → Domain → LookupResult

/-- Embedding of `resolveWithTimeout` (source lines 349-359): make one
`LookupIP` call with network `"ip4"` under a context carrying `timeout`;
if the call errs (including on timeout) or returns no addresses, return the
empty string (the program's encoding of "no result"); otherwise return the
first address of the returned list. -/
def resolveWithTimeout (lookupIP : LookupFn) (domain : Domain) (timeout : Nat) : String :=
  match lookupIP timeout "ip4" domain with
  | .err => ""
  | .ok [] => ""
  | .ok (ip :: _) => ip

/-- The body of the worker loop for one dequeued domain (source lines
265-279): resolve with a 5-second timeout; skip the domain when resolution
yields no result; otherwise run the `Insert` critical section.  `openOk`
gives the outcome of the log-file open for each address's append. -/
def workerStep (lookupIP : LookupFn) (openOk : Address → Bool)
    (s : StoreState) (domain : Domain) : StoreState :=
  let ip := resolveWithTimeout lookupIP domain 5
  if ip = "" then s else (insertIP (openOk ip) ip s).1

/-- A whole run of the worker pool over the domains in the order they were
dequeued from the channel: each critical section is atomic under `ipMapLock`,
so the run is the left fold of `workerStep`. -/
def runWorkers (lookupIP : LookupFn) (openOk : Address → Bool)
    (s : StoreState) (ds : List Domain) : StoreState :=
  ds.foldl (workerStep lookupIP openOk) s

/-- The successfully resolved addresses of a run, in dequeue order (the
non-empty results of `resolveWithTimeout` at the worker's fixed 5-second
timeout). -/
def resolvedAddrs (lookupIP : LookupFn) (ds : List Domain) : List Address :=
  (ds.map (fun d => resolveWithTimeout lookupIP d 5)).filter (fun ip => ip ≠ "")

/-- Address family of a DNS record, for modelling the `network` argument of
`LookupIP` ("ip4" selects IPv4, "ip6" selects IPv6). -/
inductive IPFamily where
  | v4
  | v6
deriving Repr, DecidableEq, BEq

/-- One address record known for a domain: its family and its literal. -/
structure DNSRecord where
  family : IPFamily
  addr : Address
deriving Repr, DecidableEq

/-- Does a record match the requested `network`?  `"ip4"` selects IPv4
records, `"ip6"` IPv6 records, `"ip"` (or anything else) both. -/
def familyMatches (network : String) (r : DNSRecord) : Bool :=
  if network = "ip4" then r.family == IPFamily.v4
  else if network = "ip6" then r.family == IPFamily.v6
  else true

/-- Behaviour of `net.Resolver.LookupIP` over a name database `db`, at its
interface boundary (spec section 6, the mechanism itself is external): it
answers the records of the requested family in the database's own order, and
reports an error (Go's "no such host") when no address of that family
exists. -/
def lookupIPNet (db : Domain → List DNSRecord) : LookupFn := fun _ network d =>
  let sel := (db d).filter (familyMatches network)
  if sel.isEmpty then .err else .ok (sel.map DNSRecord.addr)

/-- Outcome of opening and scanning a text file: the open call fails, or the
file is read as a list of lines.  A missing file is an open failure. -/
inductive FileRead where
  | openErr
  | content (lines : List String)
deriving Repr, DecidableEq

/-- The lines visible in a file, empty when it cannot be opened. -/
def linesOf : FileRead → List String
  | .openErr => []
  | .content lines => lines

/-- Embedding of Go's `strings.TrimSpace`: drop leading and trailing
whitespace characters. -/
def trimSpace (s : String) : String :=
  ⟨((s.toList.dropWhile Char.isWhitespace).reverse.dropWhile Char.isWhitespace).reverse⟩

/-- Embedding of Go's `strings.TrimPrefix(s, p)`: remove `p` from the front
of `s` when it is a prefix, otherwise return `s` unchanged. -/
def trimPrefixGo (p s : String) : String :=
  if p.toList.isPrefixOf s.toList then ⟨s.toList.drop p.toList.length⟩ else s

/-- Embedding of `loadIPs` (source lines 313-329): on an open error (missing
file included) return the empty set; otherwise scan the lines, trim each,
skip blank results, and insert the rest into the set (modelled as a
duplicate-free list; Go map insertion of a present key is a no-op). -/
def loadIPs (f : FileRead) : List Address :=
  match f with
  | .openErr => []
  | .content lines =>
      lines.foldl (fun m line =>
        let ip := trimSpace line
        if ip = "" then m else if ip ∈ m then m else ip :: m) []

/-- Normalisation of one input line by `readDomains` (source lines 302-308):
trim whitespace, then strip a leading "http://", then a leading "https://". -/
def readDomainsLine (line : String) : String :=
  trimPrefixGo "https://" (trimPrefixGo "http://" (trimSpace line))

/-- Embedding of `readDomains` (source lines 293-311): an open error is
returned to the caller; otherwise every line is normalised and the non-empty
results are kept in order. -/
def readDomains (f : FileRead) : Except Unit (List Domain) :=
  match f with
  | .openErr => .error ()
  | .content lines => .ok ((lines.map readDomainsLine).filter (fun l => l ≠ ""))

/-- The substituted worker count (source lines 248-253): a supplied thread
count below 1 is replaced by the default 100. -/
def effectiveThreadCount (threadCount : Int) : Int :=
  if threadCount < 1 then 100 else threadCount

/-- The capacity of the domain channel (source line 258):
`make(chan string, threadCount*2)` after the default substitution. -/
def queueCapacity (threadCount : Int) : Int :=
  effectiveThreadCount threadCount * 2

/-- Result of running `main` (source lines 237-291): either it returns after
reporting the input-file error, before any worker or channel is created, or
the pipeline runs to completion having attempted every parsed domain. -/
inductive MainResult where
  | configError
  | completed (final : StoreState) (attempted : List Domain)
deriving Repr, DecidableEq

/-- Embedding of `main`'s control flow: read the domain list (an error is
fatal: print and return); load the seed set from `ips.txt` (an open error
yields the empty set); run the pipeline over every domain.  The thread count
only shapes scheduling, which the fold has already linearised. -/
def mainRun (domainsFile ipsFile : FileRead) (lookupIP : LookupFn)
    (openOk : Address → Bool) : MainResult :=
  match readDomains domainsFile with
  | .error _ => .configError
  | .ok domains =>
      .completed (runWorkers lookupIP openOk ⟨loadIPs ipsFile, linesOf ipsFile, 0⟩ domains)
        domains

/-- State of the dispatcher/queue/worker system of `main`: the suffix of the
input not yet sent on the channel, the channel's buffer contents (FIFO), and
the log of resolution attempts, each tagged with the id of the worker that
dequeued the domain, in dequeue order. -/
structure PipeState where
  pending : List Domain
  queue : List Domain
  attempted : List (Nat × Domain)
deriving Repr, DecidableEq

/-- One transition of the pipeline: the dispatcher sends the next input
domain on the channel when the buffer has room (source lines 284-286), or a
worker receives the oldest buffered domain and performs its one
`resolveWithTimeout` attempt for it (source lines 265-266).  Go buffered
channels deliver each sent value to exactly one receiver, in FIFO order. -/
inductive PipeStep (workerCount cap : Nat) : PipeState → PipeState → Prop where
  | enqueue (d : Domain) (rest queue : List Domain) (a : List (Nat × Domain))
      (hcap : queue.length < cap) :
      PipeStep workerCount cap ⟨d :: rest, queue, a⟩ ⟨rest, queue ++ [d], a⟩
  | dequeue (w : Nat) (d : Domain) (pending rest : List Domain)
      (a : List (Nat × Domain)) (hw : w < workerCount) :
      PipeStep workerCount cap ⟨pending, d :: rest, a⟩ ⟨pending, rest, a ++ [(w, d)]⟩

/-- The states the pipeline can reach from the start state, in which nothing
has been enqueued or attempted. -/
inductive PipeReach (workerCount cap : Nat) (input : List Domain) : PipeState → Prop where
  | init : PipeReach workerCount cap input ⟨input, [], []⟩
  | step {s t : PipeState} : PipeReach workerCount cap input s →
      PipeStep workerCount cap s t → PipeReach workerCount cap input t

/-- Split a character list on the dot character. -/
def splitOnDot : List Char → List (List Char)
  | [] => [[]]
  | c :: cs =>
      let r := splitOnDot cs
      if c = '.' then [] :: r
      else
        match r with
        | [] => [[c]]
        | g :: gs => (c :: g) :: gs

/-- A non-empty run of digits denoting a value at most 255. -/
def isDecOctet (l : List Char) : Bool :=
  !l.isEmpty && l.all Char.isDigit &&
    decide (l.foldl (fun n c => n * 10 + (c.toNat - 48)) 0 ≤ 255)

/-- A dotted-quad IPv4 address literal: four dot-separated decimal octets
(the shape of every address `LookupIP` can return for network "ip4", and the
shape `iprange.go` validates with `net.ParseIP` before ranging). -/
def isIPv4Literal (s : String) : Bool :=
  match splitOnDot s.toList with
  | [a, b, c, d] => isDecOctet a && isDecOctet b && isDecOctet c && isDecOctet d
  | _ => false

/-- A concrete resolution environment used in the example theorems:
`a.test` resolves to the single address `10.0.0.1`; every other lookup
fails. -/
def lookupExample : LookupFn := fun _ _ d =>
  if d = "a.test" then .ok ["10.0.0.1"] else .err

theorem insertIP_mem_eq (openOk : Bool) (ip : Address) (s : StoreState)
    (h : ip ∈ s.ipMap) : insertIP openOk ip s = (s, false) := by
  simp [insertIP, h]

theorem insertCalls_of_mem (openOk : Bool) (ip : Address) (n : Nat) (s : StoreState)
    (h : ip ∈ s.ipMap) :
    insertCalls openOk ip n s = (s, List.replicate n false) := by
  induction n with
  | zero => simp [insertCalls]
  | succ n ih => simp [insertCalls, insertIP_mem_eq openOk ip s h, ih, List.replicate_succ]

/-- C1.  Dedup invariant: starting from a state in which `ip` is absent from
the in-memory set and from the durable log, in any sequence of `n ≥ 1`
`Insert` critical sections for `ip` (appends succeeding) the first call
returns `true` and every other call returns `false`; the address ends up in
the in-memory set, the durable log is extended by exactly the single line
`ip`, and hence contains `ip` exactly once. -/
theorem insert_dedup (ip : Address) (n : Nat) (s : StoreState)
    (hset : ip ∉ s.ipMap) (hlog : s.log.count ip = 0) (hn : 1 ≤ n) :
    (insertCalls true ip n s).2 = true :: List.replicate (n - 1) false ∧
    ip ∈ (insertCalls true ip n s).1.ipMap ∧
    (insertCalls true ip n s).1.log = s.log ++ [ip] ∧
    (insertCalls true ip n s).1.log.count ip = 1 := by
  obtain ⟨m, rfl⟩ : ∃ m, n = m + 1 := ⟨n - 1, (Nat.succ_pred_eq_of_pos hn).symm⟩
  have hstep : insertIP true ip s =
      ({ ipMap := ip :: s.ipMap, log := s.log ++ [ip], counter := s.counter + 1 }, true) := by
    simp [insertIP, hset, appendIP, updateProgress]
  have hmem : ip ∈ (StoreState.mk (ip :: s.ipMap) (s.log ++ [ip]) (s.counter + 1)).ipMap := by
    simp
  have hrest := insertCalls_of_mem true ip m _ hmem
  constructor
  · simp [insertCalls, hstep, hrest]
  refine ⟨?_, ?_, ?_⟩
  · simp [insertCalls, hstep, hrest]
  · simp [insertCalls, hstep, hrest]
  · simp [insertCalls, hstep, hrest, List.count_append, hlog, List.count_singleton]

/-- Witness for C1 at a concrete input: two `Insert` calls of `10.0.0.1`
starting from the empty store. -/
theorem insert_dedup_witness :
    (insertCalls true "10.0.0.1" 2 ⟨[], [], 0⟩).2 = true :: List.replicate 1 false ∧
    "10.0.0.1" ∈ (insertCalls true "10.0.0.1" 2 ⟨[], [], 0⟩).1.ipMap ∧
    (insertCalls true "10.0.0.1" 2 ⟨[], [], 0⟩).1.log = [] ++ ["10.0.0.1"] ∧
    (insertCalls true "10.0.0.1" 2 ⟨[], [], 0⟩).1.log.count "10.0.0.1" = 1 :=
  insert_dedup "10.0.0.1" 2 ⟨[], [], 0⟩ (by simp) (by simp) (by decide)

/-- C4.  Resolve contract: `resolveWithTimeout` is a total function of the
single `LookupIP` outcome it observes (no error escapes to the caller); it
returns the empty result on a lookup error (timeouts included) and on an
empty address list, and otherwise returns the first address in the
mechanism's own ordering, imposing no reordering of its own. -/
theorem resolve_contract (lookupIP : LookupFn) (d : Domain) (t : Nat) :
    (lookupIP t "ip4" d = .err → resolveWithTimeout lookupIP d t = "") ∧
    (lookupIP t "ip4" d = .ok [] → resolveWithTimeout lookupIP d t = "") ∧
    (∀ ip rest, lookupIP t "ip4" d = .ok (ip :: rest) →
      resolveWithTimeout lookupIP d t = ip) := by
  refine ⟨fun h => ?_, fun h => ?_, fun ip rest h => ?_⟩ <;>
    simp [resolveWithTimeout, h]

/-- Witness for C4: the three outcome shapes at concrete environments. -/
theorem resolve_contract_witness :
    resolveWithTimeout (fun _ _ _ => .err) "a.test" 5 = "" ∧
    resolveWithTimeout (fun _ _ _ => .ok []) "a.test" 5 = "" ∧
    resolveWithTimeout (fun _ _ _ => .ok ["93.184.216.34", "93.184.216.35"]) "a.test" 5 =
      "93.184.216.34" :=
  ⟨(resolve_contract (fun _ _ _ => .err) "a.test" 5).1 rfl,
   (resolve_contract (fun _ _ _ => .ok []) "a.test" 5).2.1 rfl,
   (resolve_contract (fun _ _ _ => .ok ["93.184.216.34", "93.184.216.35"]) "a.test" 5).2.2
     "93.184.216.34" ["93.184.216.35"] rfl⟩

/-- C8.  Worker-count configuration: a supplied thread count below 1 is
replaced by the default 100, any other value is used as given; the channel
capacity is twice the effective count (a small fixed multiple, bounded), and
the effective count is always at least 1. -/
theorem worker_count_config (t : Int) :
    (t < 1 → effectiveThreadCount t = 100) ∧
    (1 ≤ t → effectiveThreadCount t = t) ∧
    queueCapacity t = 2 * effectiveThreadCount t ∧
    1 ≤ effectiveThreadCount t := by
  refine ⟨fun h1 => ?_, fun h1 => ?_, ?_, ?_⟩
  · simp [effectiveThreadCount, h1]
  · simp [effectiveThreadCount, not_lt.mpr h1]
  · show effectiveThreadCount t * 2 = 2 * effectiveThreadCount t
    ring
  · unfold effectiveThreadCount
    split
    · norm_num
    · rename_i h
      omega

/-- Witness for C8 at the concrete counts 0 and 7. -/
theorem worker_count_config_witness :
    effectiveThreadCount 0 = 100 ∧ effectiveThreadCount 7 = 7 ∧
    queueCapacity 0 = 2 * effectiveThreadCount 0 :=
  ⟨(worker_count_config 0).1 (by decide), (worker_count_config 7).2.1 (by decide),
   (worker_count_config 0).2.2.1⟩

/-- C10.  The resolver asks `LookupIP` only for network "ip4": a domain whose
records are exclusively IPv6 yields no result, and the worker treats it as a
per-item failure, leaving the store untouched. -/
theorem ipv6_only_unresolved (db : Domain → List DNSRecord) (d : Domain) (t : Nat)
    (h6 : ∀ r ∈ db d, r.family = IPFamily.v6) :
    resolveWithTimeout (lookupIPNet db) d t = "" ∧
    ∀ (openOk : Address → Bool) (s : StoreState),
      workerStep (lookupIPNet db) openOk s d = s := by
  have hfil : (db d).filter (familyMatches "ip4") = [] := by
    rw [List.filter_eq_nil_iff]
    intro r hr
    simp [familyMatches, h6 r hr]
    decide
  have hres : ∀ u : Nat, resolveWithTimeout (lookupIPNet db) d u = "" := by
    intro u
    simp [resolveWithTimeout, lookupIPNet, hfil]
  exact ⟨hres t, fun openOk s => by simp [workerStep, hres 5]⟩

/-- Witness for C10: a domain with a single IPv6 record resolves to nothing
and the worker's step leaves the empty store unchanged. -/
theorem ipv6_only_unresolved_witness :
    resolveWithTimeout (lookupIPNet (fun _ => [⟨IPFamily.v6, "2001:db8::1"⟩])) "v6.test" 5
      = "" ∧
    workerStep (lookupIPNet (fun _ => [⟨IPFamily.v6, "2001:db8::1"⟩])) (fun _ => true)
      ⟨[], [], 0⟩ "v6.test" = ⟨[], [], 0⟩ :=
  ⟨(ipv6_only_unresolved (fun _ => [⟨IPFamily.v6, "2001:db8::1"⟩]) "v6.test" 5
      (by simp)).1,
   (ipv6_only_unresolved (fun _ => [⟨IPFamily.v6, "2001:db8::1"⟩]) "v6.test" 5
      (by simp)).2 (fun _ => true) ⟨[], [], 0⟩⟩

theorem runWorkers_cons (lookupIP : LookupFn) (openOk : Address → Bool)
    (s : StoreState) (d : Domain) (ds : List Domain) :
    runWorkers lookupIP openOk s (d :: ds) =
      runWorkers lookupIP openOk (workerStep lookupIP openOk s d) ds := rfl

theorem workerStep_keeps (lookupIP : LookupFn) (openOk : Address → Bool)
    (s : StoreState) (d : Domain) (ip : Address)
    (h1 : ip ∈ s.ipMap) (h2 : ip ∉ s.log) :
    ip ∈ (workerStep lookupIP openOk s d).ipMap ∧
    ip ∉ (workerStep lookupIP openOk s d).log := by
  simp only [workerStep]
  split
  · exact ⟨h1, h2⟩
  · simp only [insertIP]
    split
    · exact ⟨h1, h2⟩
    · rename_i hnotmem
      have hne2 : ip ≠ resolveWithTimeout lookupIP d 5 := fun he => hnotmem (he ▸ h1)
      refine ⟨List.mem_cons_of_mem _ h1, ?_⟩
      simp only [appendIP]
      split
      · intro hmem
        rcases List.mem_append.mp hmem with hc | hc
        · exact h2 hc
        · exact hne2 (List.mem_singleton.mp hc)
      · exact h2

theorem runWorkers_keeps (lookupIP : LookupFn) (openOk : Address → Bool) (ip : Address) :
    ∀ (ds : List Domain) (s : StoreState), ip ∈ s.ipMap → ip ∉ s.log →
      ip ∈ (runWorkers lookupIP openOk s ds).ipMap ∧
      ip ∉ (runWorkers lookupIP openOk s ds).log := by
  intro ds
  induction ds with
  | nil => intro s h1 h2; exact ⟨h1, h2⟩
  | cons d ds ih =>
      intro s h1 h2
      rw [runWorkers_cons]
      have hstep := workerStep_keeps lookupIP openOk s d ip h1 h2
      exact ih _ hstep.1 hstep.2

/-- C6.  Persistence write-error semantics: when the append during an
`Insert` of a fresh address fails (the log cannot be opened), the worker
carries on — the address is now in the in-memory set while the durable log
is unchanged — and no later step of the run ever appends that address (it is
never retried). -/
theorem append_error_semantics (lookupIP : LookupFn) (openOk : Address → Bool)
    (s : StoreState) (d : Domain) (ip : Address)
    (hres : resolveWithTimeout lookupIP d 5 = ip) (hip : ip ≠ "")
    (hnew : ip ∉ s.ipMap) (hlog : ip ∉ s.log) (hfail : openOk ip = false) :
    (workerStep lookupIP openOk s d).ipMap = ip :: s.ipMap ∧
    (workerStep lookupIP openOk s d).log = s.log ∧
    ∀ ds : List Domain,
      ip ∈ (runWorkers lookupIP openOk (workerStep lookupIP openOk s d) ds).ipMap ∧
      ip ∉ (runWorkers lookupIP openOk (workerStep lookupIP openOk s d) ds).log := by
  have hstep : workerStep lookupIP openOk s d = ⟨ip :: s.ipMap, s.log, s.counter + 1⟩ := by
    simp [workerStep, hres, hip, insertIP, hnew, appendIP, hfail, updateProgress]
  refine ⟨by rw [hstep], by rw [hstep], fun ds => ?_⟩
  rw [hstep]
  exact runWorkers_keeps lookupIP openOk ip ds ⟨ip :: s.ipMap, s.log, s.counter + 1⟩
    (by simp) hlog

/-- Witness for C6: `a.test` resolves to the fresh address `10.0.0.1`, the
log open fails, and re-processing the same domain afterwards still never
appends the address. -/
theorem append_error_semantics_witness :
    (workerStep lookupExample (fun _ => false) ⟨[], [], 0⟩ "a.test").ipMap =
      "10.0.0.1" :: [] ∧
    (workerStep lookupExample (fun _ => false) ⟨[], [], 0⟩ "a.test").log = [] ∧
    "10.0.0.1" ∈ (runWorkers lookupExample (fun _ => false)
      (workerStep lookupExample (fun _ => false) ⟨[], [], 0⟩ "a.test") ["a.test"]).ipMap ∧
    "10.0.0.1" ∉ (runWorkers lookupExample (fun _ => false)
      (workerStep lookupExample (fun _ => false) ⟨[], [], 0⟩ "a.test") ["a.test"]).log := by
  have h := append_error_semantics lookupExample (fun _ => false) ⟨[], [], 0⟩ "a.test"
    "10.0.0.1" (by decide) (by decide) (by simp) (by simp) rfl
  exact ⟨h.1, h.2.1, (h.2.2 ["a.test"]).1, (h.2.2 ["a.test"]).2⟩

/-- C9.  The progress counter counts in-memory insertions, not disk writes:
when the append of a fresh resolved address fails, the address is still
retained in the in-memory set and the counter is still advanced, so the
counter exceeds the number of lines actually appended to the log by that
step. -/
theorem counter_counts_memory_not_disk (lookupIP : LookupFn) (openOk : Address → Bool)
    (s : StoreState) (d : Domain) (ip : Address)
    (hres : resolveWithTimeout lookupIP d 5 = ip) (hip : ip ≠ "")
    (hnew : ip ∉ s.ipMap) (hfail : openOk ip = false) :
    (workerStep lookupIP openOk s d).counter = s.counter + 1 ∧
    ip ∈ (workerStep lookupIP openOk s d).ipMap ∧
    (workerStep lookupIP openOk s d).log = s.log ∧
    s.counter + (workerStep lookupIP openOk s d).log.length <
      (workerStep lookupIP openOk s d).counter + s.log.length := by
  have hstep : workerStep lookupIP openOk s d = ⟨ip :: s.ipMap, s.log, s.counter + 1⟩ := by
    simp [workerStep, hres, hip, insertIP, hnew, appendIP, hfail, updateProgress]
  rw [hstep]
  refine ⟨rfl, by simp, rfl, ?_⟩
  show s.counter + s.log.length < s.counter + 1 + s.log.length
  omega

/-- Witness for C9 at the same concrete failing-append scenario. -/
theorem counter_counts_memory_not_disk_witness :
    (workerStep lookupExample (fun _ => false) ⟨[], [], 0⟩ "a.test").counter = 0 + 1 ∧
    "10.0.0.1" ∈ (workerStep lookupExample (fun _ => false) ⟨[], [], 0⟩ "a.test").ipMap ∧
    (workerStep lookupExample (fun _ => false) ⟨[], [], 0⟩ "a.test").log = [] ∧
    0 + (workerStep lookupExample (fun _ => false) ⟨[], [], 0⟩ "a.test").log.length <
      (workerStep lookupExample (fun _ => false) ⟨[], [], 0⟩ "a.test").counter +
        ([] : List Address).length :=
  counter_counts_memory_not_disk lookupExample (fun _ => false) ⟨[], [], 0⟩ "a.test"
    "10.0.0.1" (by decide) (by decide) (by simp) rfl

theorem workerStep_balance (lookupIP : LookupFn) (openOk : Address → Bool)
    (s : StoreState) (d : Domain) :
    (workerStep lookupIP openOk s d).counter + s.ipMap.length =
      s.counter + (workerStep lookupIP openOk s d).ipMap.length := by
  simp only [workerStep]
  split
  · rfl
  · simp only [insertIP]
    split
    · rfl
    · show updateProgress s.counter + s.ipMap.length =
        s.counter + (resolveWithTimeout lookupIP d 5 :: s.ipMap).length
      simp [updateProgress]
      omega

theorem runWorkers_counter_balance (lookupIP : LookupFn) (openOk : Address → Bool) :
    ∀ (ds : List Domain) (s : StoreState),
      (runWorkers lookupIP openOk s ds).counter + s.ipMap.length =
        s.counter + (runWorkers lookupIP openOk s ds).ipMap.length := by
  intro ds
  induction ds with
  | nil => intro s; rfl
  | cons d ds ih =>
      intro s
      rw [runWorkers_cons]
      have h1 := ih (workerStep lookupIP openOk s d)
      have h2 := workerStep_balance lookupIP openOk s d
      omega

theorem runWorkers_ipMap_mem (lookupIP : LookupFn) (openOk : Address → Bool) (a : Address) :
    ∀ (ds : List Domain) (s : StoreState),
      a ∈ (runWorkers lookupIP openOk s ds).ipMap ↔
        a ∈ s.ipMap ∨ a ∈ resolvedAddrs lookupIP ds := by
  intro ds
  induction ds with
  | nil => intro s; simp [runWorkers, resolvedAddrs]
  | cons d ds ih =>
      intro s
      rw [runWorkers_cons, ih]
      have hres : resolvedAddrs lookupIP (d :: ds) =
          if resolveWithTimeout lookupIP d 5 = "" then resolvedAddrs lookupIP ds
          else resolveWithTimeout lookupIP d 5 :: resolvedAddrs lookupIP ds := by
        simp only [resolvedAddrs, List.map_cons, List.filter_cons]
        by_cases h0 : resolveWithTimeout lookupIP d 5 = "" <;> simp [h0]
      rw [hres]
      by_cases h0 : resolveWithTimeout lookupIP d 5 = ""
      · simp [workerStep, h0]
      · by_cases hm : resolveWithTimeout lookupIP d 5 ∈ s.ipMap
        · simp only [workerStep, if_neg h0, insertIP, if_pos hm, if_neg h0]
          constructor
          · rintro (h | h)
            · exact Or.inl h
            · exact Or.inr (List.mem_cons_of_mem _ h)
          · rintro (h | h)
            · exact Or.inl h
            · rcases List.mem_cons.mp h with h | h
              · exact Or.inl (h ▸ hm)
              · exact Or.inr h
        · simp only [workerStep, if_neg h0, insertIP, if_neg hm, if_neg h0]
          simp only [List.mem_cons]
          tauto

theorem runWorkers_ipMap_nodup (lookupIP : LookupFn) (openOk : Address → Bool) :
    ∀ (ds : List Domain) (s : StoreState), s.ipMap.Nodup →
      (runWorkers lookupIP openOk s ds).ipMap.Nodup := by
  intro ds
  induction ds with
  | nil => intro s h; exact h
  | cons d ds ih =>
      intro s h
      rw [runWorkers_cons]
      apply ih
      simp only [workerStep]
      split
      · exact h
      · simp only [insertIP]
        split
        · exact h
        · rename_i hm
          exact List.nodup_cons.mpr ⟨hm, h⟩

/-- C3.  Progress correctness: starting from counter zero and a seed set
loaded at startup, after the run the counter equals the number of distinct
resolved addresses that were not already in the seed set — duplicates and
failed resolutions never advance it, and neither do addresses present at
load time. -/
theorem progress_correctness (lookupIP : LookupFn) (openOk : Address → Bool)
    (seed log0 : List Address) (ds : List Domain) (hnd : seed.Nodup) :
    (runWorkers lookupIP openOk ⟨seed, log0, 0⟩ ds).counter =
      ((resolvedAddrs lookupIP ds).toFinset \ seed.toFinset).card := by
  have hbal := runWorkers_counter_balance lookupIP openOk ds ⟨seed, log0, 0⟩
  have hnodup : (runWorkers lookupIP openOk ⟨seed, log0, 0⟩ ds).ipMap.Nodup :=
    runWorkers_ipMap_nodup lookupIP openOk ds ⟨seed, log0, 0⟩ hnd
  have hset : (runWorkers lookupIP openOk ⟨seed, log0, 0⟩ ds).ipMap.toFinset =
      seed.toFinset ∪ (resolvedAddrs lookupIP ds).toFinset := by
    ext a
    simp only [List.mem_toFinset, Finset.mem_union]
    exact runWorkers_ipMap_mem lookupIP openOk a ds ⟨seed, log0, 0⟩
  have hlen : (runWorkers lookupIP openOk ⟨seed, log0, 0⟩ ds).ipMap.toFinset.card =
      (runWorkers lookupIP openOk ⟨seed, log0, 0⟩ ds).ipMap.length :=
    List.toFinset_card_of_nodup hnodup
  have hslen : seed.toFinset.card = seed.length := List.toFinset_card_of_nodup hnd
  have hcard : ((resolvedAddrs lookupIP ds).toFinset \ seed.toFinset).card +
      seed.toFinset.card =
      (runWorkers lookupIP openOk ⟨seed, log0, 0⟩ ds).ipMap.toFinset.card := by
    rw [hset, Finset.union_comm]
    exact Finset.card_sdiff_add_card _ _
  have hm : (StoreState.mk seed log0 0).ipMap = seed := rfl
  have hc : (StoreState.mk seed log0 0).counter = 0 := rfl
  rw [hm, hc] at hbal
  omega

/-- Witness for C3: the spec's end-to-end scenario — input
`a.test, b.test, a.test`, where only `a.test` resolves (to `10.0.0.1`),
starting from an empty seed set; the final counter is 1. -/
theorem progress_correctness_witness :
    (runWorkers lookupExample (fun _ => true) ⟨[], [], 0⟩
        ["a.test", "b.test", "a.test"]).counter =
      ((resolvedAddrs lookupExample ["a.test", "b.test", "a.test"]).toFinset \
        ([] : List Address).toFinset).card ∧
    (runWorkers lookupExample (fun _ => true) ⟨[], [], 0⟩
        ["a.test", "b.test", "a.test"]).counter = 1 :=
  ⟨progress_correctness lookupExample (fun _ => true) [] [] ["a.test", "b.test", "a.test"]
      (by simp),
   by decide⟩

theorem pipeReach_partition {workerCount cap : Nat} {input : List Domain} {s : PipeState}
    (h : PipeReach workerCount cap input s) :
    s.attempted.map Prod.snd ++ s.queue ++ s.pending = input := by
  induction h with
  | init => simp
  | step hr hs ih =>
      cases hs with
      | enqueue d rest queue a hcap => simpa using ih
      | dequeue w d pending rest a hw => simpa using ih

/-- C2.  Completeness: in any reachable pipeline state in which the
dispatcher has enqueued the whole input (nothing pending, so the channel has
been closed) and the queue has been drained, the sequence of resolution
attempts — each performed by exactly one worker on the domain it dequeued —
is exactly the input sequence: every domain of the input is attempted
exactly once, none twice, none skipped, for any worker count of at least 1
and any channel capacity. -/
theorem pipeline_completeness (workerCount cap : Nat) (input : List Domain)
    (s : PipeState) (hwc : 1 ≤ workerCount)
    (h : PipeReach workerCount cap input s)
    (hp : s.pending = []) (hq : s.queue = []) :
    s.attempted.map Prod.snd = input := by
  have hpart := pipeReach_partition h
  rw [hp, hq] at hpart
  simpa using hpart

/-- Witness for C2: a concrete complete execution with one worker and
capacity two over the input `a.test, b.test`. -/
theorem pipeline_completeness_witness :
    (PipeState.mk [] [] [(0, "a.test"), (0, "b.test")]).attempted.map Prod.snd =
      ["a.test", "b.test"] := by
  have h0 : PipeReach 1 2 ["a.test", "b.test"] ⟨["a.test", "b.test"], [], []⟩ := .init
  have h1 : PipeReach 1 2 ["a.test", "b.test"] ⟨["b.test"], ["a.test"], []⟩ :=
    .step h0 (.enqueue "a.test" ["b.test"] [] [] (by decide))
  have h2 : PipeReach 1 2 ["a.test", "b.test"] ⟨[], ["a.test", "b.test"], []⟩ :=
    .step h1 (.enqueue "b.test" [] ["a.test"] [] (by decide))
  have h3 : PipeReach 1 2 ["a.test", "b.test"] ⟨[], ["b.test"], [(0, "a.test")]⟩ :=
    .step h2 (.dequeue 0 "a.test" [] ["b.test"] [] (by decide))
  have h4 : PipeReach 1 2 ["a.test", "b.test"]
      ⟨[], [], [(0, "a.test"), (0, "b.test")]⟩ :=
    .step h3 (.dequeue 0 "b.test" [] [] [(0, "a.test")] (by decide))
  exact pipeline_completeness 1 2 ["a.test", "b.test"]
    ⟨[], [], [(0, "a.test"), (0, "b.test")]⟩ (by decide) h4 rfl rfl

theorem loadIPs_fold_mem (a : Address) :
    ∀ (lines : List String) (acc : List Address),
      (a ∈ lines.foldl (fun m line =>
          let ip := trimSpace line
          if ip = "" then m else if ip ∈ m then m else ip :: m) acc) ↔
      (a ∈ acc ∨ ∃ line ∈ lines, trimSpace line = a ∧ a ≠ "") := by
  intro lines
  induction lines with
  | nil => intro acc; simp
  | cons l ls ih =>
      intro acc
      rw [List.foldl_cons, ih]
      constructor
      · rintro (h | h)
        · by_cases h0 : trimSpace l = ""
          · simp [h0] at h
            exact Or.inl h
          · by_cases hm : trimSpace l ∈ acc
            · simp [h0, hm] at h
              exact Or.inl h
            · simp [h0, hm] at h
              rcases h with h | h
              · refine Or.inr ⟨l, by simp, h.symm, ?_⟩
                rw [h]
                exact h0
              · exact Or.inl h
        · rcases h with ⟨line, hline, he, hne⟩
          exact Or.inr ⟨line, List.mem_cons_of_mem _ hline, he, hne⟩
      · rintro (h | ⟨line, hline, he, hne⟩)
        · left
          by_cases h0 : trimSpace l = ""
          · simpa [h0] using h
          · by_cases hm : trimSpace l ∈ acc
            · simpa [h0, hm] using h
            · simp [h0, hm]
              exact Or.inr h
        · rcases List.mem_cons.mp hline with rfl | hmem
          · left
            have h0 : ¬ trimSpace line = "" := by rw [he]; exact hne
            by_cases hm : trimSpace line ∈ acc
            · simp [h0, hm]
              exact he ▸ hm
            · simp [h0, hm]
              exact Or.inl he.symm
          · exact Or.inr ⟨line, hmem, he, hne⟩

/-- C5, counterexample to the malformed-line clause: the line
`hello world` is not a well-formed address literal, yet `loadIPs` returns a
set containing it — the code performs no well-formedness filtering. -/
theorem loadIPs_malformed_counterexample :
    isIPv4Literal "hello world" = false ∧
    "hello world" ∈ loadIPs (.content ["hello world"]) := by
  constructor
  · decide
  · decide

/-- C5, amended.  Load contract: a file that cannot be opened (a missing
file included) is not an error and yields the empty set; every line is
whitespace-trimmed; lines that are blank after trimming are skipped; every
other line is included verbatim, with no malformed-line filtering. -/
theorem loadIPs_contract (f : FileRead) :
    (f = .openErr → loadIPs f = []) ∧
    ∀ a : Address, (a ∈ loadIPs f ↔ ∃ line ∈ linesOf f, trimSpace line = a ∧ a ≠ "") := by
  cases f with
  | openErr =>
      refine ⟨fun _ => rfl, fun a => ?_⟩
      simp [loadIPs, linesOf]
  | content lines =>
      refine ⟨fun h => FileRead.noConfusion h, fun a => ?_⟩
      have h := loadIPs_fold_mem a lines []
      simpa [loadIPs, linesOf] using h

/-- Witness for C5's amended contract: the missing-file case, and a
three-line file from which the padded address is kept (trimmed) while the
blank line is skipped. -/
theorem loadIPs_contract_witness :
    loadIPs .openErr = [] ∧
    "10.0.0.1" ∈ loadIPs (.content [" 10.0.0.1 ", "", "hello world"]) :=
  ⟨(loadIPs_contract .openErr).1 rfl,
   ((loadIPs_contract (.content [" 10.0.0.1 ", "", "hello world"])).2 "10.0.0.1").mpr
     ⟨" 10.0.0.1 ", by simp [linesOf], by decide, by decide⟩⟩

/-- C7, counterexample to the durable-log clause: with the input file
readable but the durable log unopenable both for the startup read and for
every append, the pipeline still starts and runs to completion, performing
per-item work (the one domain is resolved and inserted in memory). -/
theorem log_unopenable_not_fatal :
    mainRun (.content ["a.test"]) .openErr lookupExample (fun _ => false) ≠
      .configError ∧
    mainRun (.content ["a.test"]) .openErr lookupExample (fun _ => false) =
      .completed ⟨["10.0.0.1"], [], 1⟩ ["a.test"] := by
  constructor
  · decide
  · decide

/-- C7, amended.  Only the input domain sequence being unavailable is fatal:
`main` reports the read error and returns before the pipeline starts.  An
unopenable durable log is not fatal: the startup read failure yields an
empty seed set, and the pipeline runs over every parsed domain (append
failures are reported per item while the run continues). -/
theorem config_error_semantics (domainsFile ipsFile : FileRead)
    (lookupIP : LookupFn) (openOk : Address → Bool) :
    (domainsFile = .openErr →
      mainRun domainsFile ipsFile lookupIP openOk = .configError) ∧
    ∀ lines, domainsFile = .content lines →
      mainRun domainsFile ipsFile lookupIP openOk =
        .completed
          (runWorkers lookupIP openOk ⟨loadIPs ipsFile, linesOf ipsFile, 0⟩
            ((lines.map readDomainsLine).filter (fun l => l ≠ "")))
          ((lines.map readDomainsLine).filter (fun l => l ≠ "")) := by
  constructor
  · rintro rfl
    rfl
  · rintro lines rfl
    rfl

/-- Witness for C7's amended semantics: an unreadable input file aborts the
run; a readable input with an unopenable log runs the pipeline. -/
theorem config_error_semantics_witness :
    mainRun .openErr .openErr lookupExample (fun _ => true) = .configError ∧
    mainRun (.content ["a.test"]) .openErr lookupExample (fun _ => true) =
      .completed
        (runWorkers lookupExample (fun _ => true) ⟨loadIPs .openErr, linesOf .openErr, 0⟩
          (((["a.test"] : List String).map readDomainsLine).filter (fun l => l ≠ "")))
        (((["a.test"] : List String).map readDomainsLine).filter (fun l => l ≠ "")) :=
  ⟨(config_error_semantics .openErr .openErr lookupExample (fun _ => true)).1 rfl,
   (config_error_semantics (.content ["a.test"]) .openErr lookupExample
     (fun _ => true)).2 ["a.test"] rfl⟩
